import Mathlib

/-!
# Verification of the rustracer core against its specification

Shallow embedding of the rustracer renderer (files `src/lib.rs`,
`src/material/colour.rs`, `src/material/material.rs`, `src/ray.rs`,
`src/primitives/triangle.rs`, `src/scene.rs`, `src/viewport.rs`).

Modelling conventions:

* The Rust scalar type is `f32` (`pub type Scalar = f32;`).  The embedding
  uses exact rational arithmetic `ℚ`.  All concrete data appearing in the
  tests of the repository are small dyadic rationals, so exact arithmetic agrees
  with `f32` on every value we evaluate.  `NaN` is not representable in `ℚ`;
  the predicate `ratIsNaN` below is therefore constantly `false`, making the
  NaN filter of the source vacuous in the embedding.

* The `nalgebra` function `Unit::new_normalize` multiplies a nonzero vector by the
  positive scalar `1/‖v‖`.  The embedding stores the unnormalized vector and
  records where this is sound: every use of a triangle normal is either a
  sign test (`is_inside`, the parallel-ray test) or the quotient defining
  the ray parameter `t`, and every use of a ray direction either cancels
  against that quotient (`t * direction`) or is itself only compared for
  sign, so replacing `v/‖v‖` by `v` (a positive rescaling) never changes an
  `intersects` result.

* External collaborators (the perspective
  projection of the `nalgebra` algebra library, the `OpenSimplex` generator of the `noise` crate, the `rand`
  function `thread_rng`) are exactly the components §1 of the spec excludes from the
  core; they are modelled as explicit function parameters (oracles), and all
  theorems quantify over them.
-/

namespace Rustracer

/-- 3D vector / point over exact rationals (`nalgebra::Vector3<f32>` /
`Point3<f32>`; points and vectors are identified, `p - Point3::origin()`
being the identity in the embedding). -/
structure Vec3 where
  x : ℚ
  y : ℚ
  z : ℚ
deriving DecidableEq, Repr

namespace Vec3

def add (a b : Vec3) : Vec3 := ⟨a.x + b.x, a.y + b.y, a.z + b.z⟩

def sub (a b : Vec3) : Vec3 := ⟨a.x - b.x, a.y - b.y, a.z - b.z⟩

def smul (s : ℚ) (a : Vec3) : Vec3 := ⟨s * a.x, s * a.y, s * a.z⟩

/-- `nalgebra` dot product. -/
def dot (a b : Vec3) : ℚ := a.x * b.x + a.y * b.y + a.z * b.z

/-- `nalgebra` cross product. -/
def cross (a b : Vec3) : Vec3 :=
  ⟨a.y * b.z - a.z * b.y, a.z * b.x - a.x * b.z, a.x * b.y - a.y * b.x⟩

/-- Squared Euclidean norm.  The source computes `(p - origin).norm()`
(`√` of this); since `x ↦ √x` is strictly monotone on nonnegative reals,
comparing squared norms with `<`, `≤`, `=` is equivalent to comparing the
norms themselves, which is the only use the source makes of them. -/
def sqNorm (a : Vec3) : ℚ := dot a a

end Vec3

/-- 2D vector / point over exact rationals (`nalgebra::Vector2<f32>` /
`Point2<f32>`). -/
structure Vec2 where
  x : ℚ
  y : ℚ
deriving DecidableEq, Repr

namespace Vec2

def add (a b : Vec2) : Vec2 := ⟨a.x + b.x, a.y + b.y⟩

def scale (s : ℚ) (a : Vec2) : Vec2 := ⟨s * a.x, s * a.y⟩

end Vec2

/-- `Colour` from `src/material/colour.rs`: an RGB light-energy value. -/
structure Colour where
  red : ℚ
  green : ℚ
  blue : ℚ
deriving DecidableEq, Repr

namespace Colour

/-- `Default` for `Colour` is all-zero channels. -/
def zero : Colour := ⟨0, 0, 0⟩

/-- Componentwise `+` (`impl_op_ex!(+ ...)`). -/
def add (a b : Colour) : Colour := ⟨a.red + b.red, a.green + b.green, a.blue + b.blue⟩

/-- Componentwise `*` with another `Colour` (`impl_op_ex!(* ...)`). -/
def mul (a b : Colour) : Colour := ⟨a.red * b.red, a.green * b.green, a.blue * b.blue⟩

/-- `Colour * scalar` (commutative; `impl_op_ex_commutative!`). -/
def scale (s : ℚ) (c : Colour) : Colour := ⟨s * c.red, s * c.green, s * c.blue⟩

/-- `Colour / scalar` (componentwise division). -/
def divScalar (c : Colour) (s : ℚ) : Colour := ⟨c.red / s, c.green / s, c.blue / s⟩

/-- The value of `components.iter().max_by(partial_cmp).unwrap()` for
`components = [red, green, blue]`: the maximum channel. -/
def maxChannel (c : Colour) : ℚ := max (max c.red c.green) c.blue

/-- `Colour::clamped` (`colour.rs` lines 12–19): divide all channels by
`max(maxChannel, 1.0)`. -/
def clamped (c : Colour) : Colour := c.divScalar (max c.maxChannel 1)

end Colour

/-- `image::Rgb<u8>`: an 8-bit RGB triple.  Channels are `Nat`s, kept in
`[0, 255]` by the saturating cast below. -/
structure Rgb where
  r : Nat
  g : Nat
  b : Nat
deriving DecidableEq, Repr

/-- The Rust `as u8` cast on an `f32`: truncate toward zero and saturate into
`[0, 255]`.  Truncation toward zero of `q ≥ 0` is `⌊q⌋`; negative inputs
saturate to `0` either way.  `q.num / q.den` is `Int` T-division, which
truncates toward zero. -/
def ratAsU8 (q : ℚ) : Nat := (min 255 (max 0 (q.num / (q.den : ℤ)))).toNat

/-- `From<Rgb<u8>> for Colour` (`colour.rs` lines 22–30): divide each
channel by 255. -/
def colourFromRgb (cl : Rgb) : Colour :=
  ⟨(cl.r : ℚ) / 255, (cl.g : ℚ) / 255, (cl.b : ℚ) / 255⟩

/-- `Into<Rgb<u8>> for Colour` (`colour.rs` lines 32–41): clamp, scale by
255, cast each channel with `as u8`. -/
def colourToRgb (c : Colour) : Rgb :=
  let selfByted := Colour.scale 255 c.clamped
  ⟨ratAsU8 selfByted.red, ratAsU8 selfByted.green, ratAsU8 selfByted.blue⟩

/-- `Material` from `src/material/material.rs`. -/
structure Material where
  emission : Colour
  diffuse : Colour
deriving DecidableEq, Repr

/-- `Default` for `Material`: both colours zero. -/
def Material.default : Material := ⟨Colour.zero, Colour.zero⟩

/-- `Ray` from `src/ray.rs`.  `Ray::new` normalizes the direction with
`Unit::new_normalize`; the embedding stores the raw direction (see the
header comment: `intersects` is invariant under positive rescaling of the
direction). -/
structure Ray where
  origin : Vec3
  direction : Vec3
deriving DecidableEq, Repr

/-- `Triangle` from `src/primitives/triangle.rs`: three vertices, the cached
normal, and the (to-be-removed) `colour : Rgb<u8>` field. -/
structure Triangle where
  v0 : Vec3
  v1 : Vec3
  v2 : Vec3
  normal : Vec3
  colour : Rgb
deriving DecidableEq, Repr

namespace Triangle

/-- `Triangle::calculate_normal` (`triangle.rs` lines 49–53): the cross
product of edges `(v1−v0) × (v2−v0)`.  The source wraps it in
`Unit::new_normalize`; the embedding keeps the unnormalized cross product
(positive rescaling, see header comment). -/
def calculate_normal (a b c : Vec3) : Vec3 :=
  Vec3.cross (Vec3.sub b a) (Vec3.sub c a)

/-- `Triangle::new` (`triangle.rs` lines 20–26). -/
def new (a b c : Vec3) (colour : Rgb) : Triangle :=
  ⟨a, b, c, calculate_normal a b c, colour⟩

/-- `Triangle::new_triangle_colour` (`triangle.rs` lines 28–34): reuse the
vertices and cached normal, replace the colour. -/
def new_triangle_colour (t : Triangle) (colour : Rgb) : Triangle :=
  ⟨t.v0, t.v1, t.v2, t.normal, colour⟩

/-- `Triangle::get_v`. -/
def get_v (t : Triangle) (index : Fin 3) : Vec3 :=
  match index with
  | 0 => t.v0
  | 1 => t.v1
  | 2 => t.v2

/-- `Triangle::set_v` (`triangle.rs` lines 44–47): update one vertex and
recompute the normal from the updated vertices. -/
def set_v (t : Triangle) (index : Fin 3) (value : Vec3) : Triangle :=
  let a := if index = 0 then value else t.v0
  let b := if index = 1 then value else t.v1
  let c := if index = 2 then value else t.v2
  ⟨a, b, c, calculate_normal a b c, t.colour⟩

/-- `Triangle::is_inside` (`triangle.rs` lines 55–67): the point is on the
positive side of each of the three edge planes. -/
def is_inside (t : Triangle) (point : Vec3) : Bool :=
  let edge1 := Vec3.sub t.v1 t.v0
  let edge2 := Vec3.sub t.v2 t.v1
  let edge3 := Vec3.sub t.v0 t.v2
  let w1 := Vec3.sub point t.v0
  let w2 := Vec3.sub point t.v1
  let w3 := Vec3.sub point t.v2
  let norm := t.normal
  decide (0 < Vec3.dot norm (Vec3.cross edge1 w1)) &&
    decide (0 < Vec3.dot norm (Vec3.cross edge2 w2)) &&
    decide (0 < Vec3.dot norm (Vec3.cross edge3 w3))

/-- `<Triangle as RayTraceable>::intersects` (`triangle.rs` lines 71–88):
ray/plane intersection followed by the `is_inside` test.  Note the source
computes `t = -(norm·origin + distance_to_origin) / norm·direction` with
`distance_to_origin = norm·v0`. -/
def intersects (t : Triangle) (ray : Ray) : Option Vec3 :=
  let norm := t.normal
  if 0 = Vec3.dot norm ray.direction then none
  else
    let a_vector := t.v0
    let distance_to_origin := Vec3.dot norm a_vector
    let origin_vector := ray.origin
    let tpar := -(Vec3.dot norm origin_vector + distance_to_origin) /
      Vec3.dot norm ray.direction
    if tpar < 0 then none
    else
      let plane_point := Vec3.add ray.origin (Vec3.smul tpar ray.direction)
      if is_inside t plane_point then some plane_point else none

/-- Generic vertex-wise transform application.  All seven operator impls of
`triangle.rs` lines 91–142 (`Matrix3`, `Rotation3`, `Translation3`,
`Isometry3`, `Similarity3`, `Transform3`, `Matrix4`) have the same body:
`Triangle::new` applied to the per-vertex image of the transform, which
recomputes the normal.  `f` is the action of the transform on points
(`a * p`, resp. `a.transform_point(&p)`). -/
def applyTransform (f : Vec3 → Vec3) (t : Triangle) : Triangle :=
  new (f t.v0) (f t.v1) (f t.v2) t.colour

/-- A concrete 3×3 matrix (`nalgebra::Matrix3<f32>`), row-major. -/
structure Matrix3 where
  m11 : ℚ
  m12 : ℚ
  m13 : ℚ
  m21 : ℚ
  m22 : ℚ
  m23 : ℚ
  m31 : ℚ
  m32 : ℚ
  m33 : ℚ
deriving DecidableEq, Repr

/-- `Matrix3 * Point3`. -/
def Matrix3.apply (m : Matrix3) (p : Vec3) : Vec3 :=
  ⟨m.m11 * p.x + m.m12 * p.y + m.m13 * p.z,
   m.m21 * p.x + m.m22 * p.y + m.m23 * p.z,
   m.m31 * p.x + m.m32 * p.y + m.m33 * p.z⟩

/-- `impl_op_ex!(* |a: &Matrix3, b: &Triangle| ...)` (`triangle.rs`
lines 91–96). -/
def mulMatrix3 (m : Matrix3) (t : Triangle) : Triangle :=
  applyTransform m.apply t

/-- `impl_op_ex!(* |a: &Translation3, b: &Triangle| ...)` (`triangle.rs`
lines 105–110). -/
def mulTranslation (v : Vec3) (t : Triangle) : Triangle :=
  applyTransform (Vec3.add v) t

end Triangle

/-- `HitResult` from `src/scene.rs` (lines 7–12). -/
structure HitResult where
  point : Vec3
  index : Nat
deriving DecidableEq, Repr

/-- `TraceResult` from `src/scene.rs` (lines 14–19).  `Default` is both
colours zero. -/
structure TraceResult where
  diffuse : Colour
  emission : Colour
deriving DecidableEq, Repr

namespace TraceResult

/-- `Default::default()` for `TraceResult`. -/
def zero : TraceResult := ⟨Colour.zero, Colour.zero⟩

/-- `TraceResult::add_light` (`scene.rs` lines 162–164): accumulate only
the emission channel (written as the fold step of the `for` loop of the source
with in-place `+=`). -/
def add_light (self other : TraceResult) : TraceResult :=
  { self with emission := self.emission.add other.emission }

/-- `TraceResult::apply_to` (`scene.rs` lines 166–172): both output fields
are `material.emission + material.diffuse * self.emission`. -/
def apply_to (self : TraceResult) (material : Material) : TraceResult :=
  ⟨(material.emission.add (material.diffuse.mul self.emission)),
   (material.emission.add (material.diffuse.mul self.emission))⟩

/-- `From<Material> for TraceResult` (`scene.rs` lines 174–181): take the
fields `{emission, diffuse}` of the material as-is. -/
def fromMaterial (material : Material) : TraceResult :=
  ⟨material.diffuse, material.emission⟩

/-- The accumulated emission of a list of trace results: the fold of
`Colour.add` over their emission channels, exactly what the `for` loop of
`trace_until` accumulates through `add_light` starting from the default
(zero) trace result. -/
def emissionSum (l : List TraceResult) : Colour :=
  l.foldl (fun c tr => c.add tr.emission) Colour.zero

end TraceResult

/-- `PrimitivesWithMaterials<Triangle>` from `src/scene.rs` (lines 21–26):
two index-synchronized parallel sequences. -/
structure PrimsWithMats where
  primitives : List Triangle
  materials : List Material
deriving DecidableEq, Repr

/-- `f32::is_nan` transported to the exact-rational embedding: a rational
number is never NaN, so the NaN filter of the source keeps every element. -/
def ratIsNaN (_ : ℚ) : Bool := false

/-- The Rust `Iterator::min_by` with comparator `partial_cmp(..).unwrap()`
on the key: returns the element with the minimum key; if several elements
are equally minimum, the first one is returned (documented tie-breaking of
`Iterator::min_by`).  Recursion from the right, preferring the head on
ties, realizes exactly that semantics. -/
def minByFirst {α : Type} (key : α → ℚ) : List α → Option α
  | [] => none
  | x :: xs =>
    match minByFirst key xs with
    | none => some x
    | some y => if key y < key x then some y else some x

namespace PrimsWithMats

/-- The intermediate list built by the iterator chain of `closest_hit`
(`scene.rs` lines 134–143): enumerate primitives in append order, keep the
intersecting ones as `(index, point)`, pair each with the distance from the
ray origin to its hit point (squared in the embedding, see `Vec3.sqNorm`),
and drop NaN distances (vacuous over `ℚ`). -/
def hitTriples (pm : PrimsWithMats) (ray : Ray) : List (Nat × Vec3 × ℚ) :=
  (((pm.primitives.enum.filterMap fun it =>
      match Triangle.intersects it.2 ray with
      | some p => some (it.1, p)
      | none => none).map
    fun ip => (ip.1, ip.2, Vec3.sqNorm (Vec3.sub ip.2 ray.origin))).filter
  fun ipd => !(ratIsNaN ipd.2.2))

/-- `PrimitivesWithMaterials::closest_hit` (`scene.rs` lines 133–150). -/
def closest_hit (pm : PrimsWithMats) (ray : Ray) : Option HitResult :=
  (minByFirst (fun ipd => ipd.2.2) (pm.hitTriples ray)).map
    fun hit => ⟨hit.2.1, hit.1⟩

/-- `PrimitivesWithMaterials::get_material` (`scene.rs` lines 156–158).
The source indexes `&self.materials[index]`; the embedding totalizes the
panic on an out-of-range index with `Material.default` (never reached:
`closest_hit` only produces indices of stored primitives). -/
def get_material (pm : PrimsWithMats) (index : Nat) : Material :=
  pm.materials.getD index Material.default

end PrimsWithMats

/-- `Scene` from `src/scene.rs` (lines 28–35), together with the beam
oracle.  The source functions `get_reflected_ray`/`get_beam` (`scene.rs` lines
87–115) build `beam_rays_count` jittered reflections of the incoming ray
using `rand::thread_rng()` (external nondeterminism), `f32::EPSILON`
offsets, square-root normalizations, and `RayTraceable::get_size`, whose
implementation for `Triangle` is not among the sources; the beam produced
for a given incoming ray and hit is abstracted as the oracle field `beam`,
and every theorem below holds for every oracle. -/
structure SceneE where
  default_material : Material
  recursion_depth : Nat
  beam_rays_count : Nat
  triangles : PrimsWithMats
  beam : Ray → HitResult → List Ray

namespace SceneE

/-- `Scene::closest_hit` (`scene.rs` lines 83–85): delegate. -/
def closest_hit (s : SceneE) (ray : Ray) : Option HitResult :=
  s.triangles.closest_hit ray

/-- `Scene::trace_until` (`scene.rs` lines 58–81).  On a miss, fall back to
the default material; on a hit with `step < recursion_depth`, trace the
beam recursively at `step + 1`, accumulate emissions with `add_light`,
divide by `beam_rays_count`; on a hit with exhausted depth, use the default
material; finally `apply_to` the hit material. -/
def trace_until (s : SceneE) (ray : Ray) (step : Nat) : TraceResult :=
  match s.closest_hit ray with
  | none => TraceResult.fromMaterial s.default_material
  | some hit =>
    let material := s.triangles.get_material hit.index
    let trace_result :=
      if _h : step < s.recursion_depth then
        let subs := (s.beam ray hit).map fun beam_ray => s.trace_until beam_ray (step + 1)
        let acc := subs.foldl TraceResult.add_light TraceResult.zero
        { acc with emission := acc.emission.divScalar (s.beam_rays_count : ℚ) }
      else
        TraceResult.fromMaterial s.default_material
    trace_result.apply_to material
termination_by s.recursion_depth - step
decreasing_by omega

/-- `Scene::trace` (`scene.rs` lines 54–56): the `diffuse` field of the
depth-0 result. -/
def trace (s : SceneE) (ray : Ray) : Colour :=
  (s.trace_until ray 0).diffuse

/-- Instrumented recursion depth of `trace_until` (per the spec: "verify by
instrumenting/bounding call count"): `0` where `trace_until` does not
recurse, and one more than the deepest beam sub-call where it does.  The
match/guard structure mirrors `trace_until`. -/
def traceCallDepth (s : SceneE) (ray : Ray) (step : Nat) : Nat :=
  match s.closest_hit ray with
  | none => 0
  | some hit =>
    if _h : step < s.recursion_depth then
      (((s.beam ray hit).map fun beam_ray => s.traceCallDepth beam_ray (step + 1)).foldl
        max 0) + 1
    else 0
termination_by s.recursion_depth - step
decreasing_by omega

end SceneE

/-- `Viewport` from `src/viewport.rs` (lines 7–14).  The
`Perspective3` projection is part of the excluded `nalgebra` library; its
`unproject_point` action is carried as the function field `unproject`. -/
structure ViewportE where
  width : ℚ
  height : ℚ
  unproject : Vec3 → Vec3
  point_offsets : List Vec2

namespace ViewportE

/-- `Viewport::new` (`viewport.rs` lines 17–38).  `noise00` is the value of
`OpenSimplex::new().get([0.0, 0.0])` (the deterministic generator of the external `noise` crate, always queried at the same constant coordinate by
the source); `unprojectFn` models the `Perspective3::new(width/height,
fovy, znear, zfar)` projection function `unproject_point`. -/
def new (width height : Nat) (unprojectFn : Vec3 → Vec3) (noise00 : ℚ)
    (point_rays_count : Nat) : ViewportE :=
  let coords := ((List.range point_rays_count).map fun _ =>
    (⟨noise00, noise00⟩ : Vec2)).map fun v => v.scale (1 / 2)
  { width := width
    height := height
    unproject := unprojectFn
    point_offsets := coords }

/-- `Viewport::get_rays_count` (`viewport.rs` lines 52–54). -/
def get_rays_count (vp : ViewportE) : Nat := vp.point_offsets.length

/-- `Viewport::normalize_point` (`viewport.rs` lines 56–61). -/
def normalize_point (vp : ViewportE) (screen_point : Vec2) : Vec2 :=
  ⟨screen_point.x / vp.width - 1 / 2, 1 / 2 - screen_point.y / vp.height⟩

/-- `Viewport::cast_ray` (`viewport.rs` lines 63–84): one ray per stored
offset, via jittered pixel coordinate → NDC → unprojection at the near and
far planes → `Ray::new(near, far - near)`. -/
def cast_ray (vp : ViewportE) (screen_point : Nat × Nat) : List Ray :=
  ((((vp.point_offsets.map fun off =>
      vp.normalize_point (Vec2.add ⟨screen_point.1, screen_point.2⟩ off)).map
    fun pt => ((⟨pt.x, pt.y, -1⟩ : Vec3), (⟨pt.x, pt.y, 1⟩ : Vec3))).map
    fun nf => (vp.unproject nf.1, vp.unproject nf.2)).map
    fun nf => Ray.mk nf.1 (Vec3.sub nf.2 nf.1))

end ViewportE

/-! ## Concrete fixtures

Data taken from the tests of the repository (`triangle.rs` and `scene.rs`):
the triangle `[(1,−1,z), (0,1,z), (−1,−1,z)]` at plane offsets `z = 0`
(used by `triangle_intersects_ray` and the `no_recusrion` scene tests),
`z = 1` and `z = 1.1` (used by
`closest_hit_chooses_closest_primitive_on_hit`), and the upward ray from
`(0,0,−1)` along `+z` used by all of them. -/

/-- The test triangle in the plane `z = 0`. -/
def triZ0 : Triangle := Triangle.new ⟨1, -1, 0⟩ ⟨0, 1, 0⟩ ⟨-1, -1, 0⟩ ⟨0, 0, 0⟩

/-- The test triangle in the plane `z = 1`. -/
def triZ1 : Triangle := Triangle.new ⟨1, -1, 1⟩ ⟨0, 1, 1⟩ ⟨-1, -1, 1⟩ ⟨0, 0, 0⟩

/-- The test triangle in the plane `z = 1.1`. -/
def triZ11 : Triangle :=
  Triangle.new ⟨1, -1, 11/10⟩ ⟨0, 1, 11/10⟩ ⟨-1, -1, 11/10⟩ ⟨0, 0, 0⟩

/-- The test ray `Ray::new(Point3::new(0,0,−1), Vector3::new(0,0,1))`. -/
def rayUp : Ray := ⟨⟨0, 0, -1⟩, ⟨0, 0, 1⟩⟩

/-- The two-triangle collection of
`closest_hit_chooses_closest_primitive_on_hit` (farther `z = 1.1` triangle
added first, nearer `z = 1` triangle second). -/
def pairPrims : PrimsWithMats :=
  ⟨[triZ11, triZ1], [Material.default, Material.default]⟩

/-- The default material of the `no_recusrion` scene tests:
emission `(1,1,1)`, diffuse `(1,1,0)`. -/
def defaultMatW : Material := ⟨⟨1, 1, 1⟩, ⟨1, 1, 0⟩⟩

/-- Zero-emission green material (the hit material of
`tracing_with_hit_yields_hitted_primitive_colour`). -/
def matGreen : Material := ⟨Colour.zero, ⟨0, 1, 0⟩⟩

/-- Green material with nonzero emission `(2,2,2)`. -/
def matGreenEmissive : Material := ⟨⟨2, 2, 2⟩, ⟨0, 1, 0⟩⟩

/-- Depth-0 scene with one hit triangle and zero-emission hit material
(the `tracing_with_hit_yields_hitted_primitive_colour` scene). -/
def sceneHitW : SceneE := ⟨defaultMatW, 0, 1, ⟨[triZ0], [matGreen]⟩, fun _ _ => []⟩

/-- Depth-0 scene identical to `sceneHitW` except the hit material has
emission `(2,2,2)`. -/
def sceneHitEmissive : SceneE :=
  ⟨defaultMatW, 0, 1, ⟨[triZ0], [matGreenEmissive]⟩, fun _ _ => []⟩

/-- Empty depth-0 scene (the `tracing_empty_scene_yields_default_colour`
scene). -/
def sceneEmpty : SceneE := ⟨defaultMatW, 0, 1, ⟨[], []⟩, fun _ _ => []⟩

/-- Depth-1 scene with one hit triangle (beam oracle returning no rays). -/
def sceneDepth1 : SceneE := ⟨defaultMatW, 1, 1, ⟨[triZ0], [matGreen]⟩, fun _ _ => []⟩

/-- The normal-cache invariant of `Triangle` (spec §3): the stored `normal`
field always equals `calculate_normal` of the stored vertices. -/
def Triangle.normalInvariant (t : Triangle) : Prop :=
  t.normal = Triangle.calculate_normal t.v0 t.v1 t.v2

/-! ## Theorems -/

/-- Dividing a colour by the scalar `1` is the identity. -/
theorem Colour.divScalar_one (c : Colour) : c.divScalar 1 = c := by
  cases c; simp [Colour.divScalar]

/-- The channel maximum of `c.divScalar s` for `0 < s` is
`c.maxChannel / s`. -/
theorem Colour.maxChannel_divScalar (c : Colour) (s : ℚ) (hs : 0 < s) :
    (c.divScalar s).maxChannel = c.maxChannel / s := by
  cases c
  simp only [Colour.divScalar, Colour.maxChannel]
  rw [max_div_div_right hs.le, max_div_div_right hs.le]

/-- C7: `Colour::clamped` is idempotent, is the identity on colours whose
channel maximum is at most `1`, and divides all three channels by the
channel maximum when that maximum exceeds `1.0`. -/
theorem clamped_idempotent_and_conditional_identity (c : Colour) :
    c.clamped.clamped = c.clamped ∧
    c.clamped = if 1 < c.maxChannel then c.divScalar c.maxChannel else c := by
  rcases le_or_lt c.maxChannel 1 with hle | hlt
  · have hid : c.clamped = c := by
      rw [Colour.clamped, max_eq_right hle, Colour.divScalar_one]
    rw [hid, if_neg (not_lt.mpr hle)]
    exact ⟨hid, rfl⟩
  · have h0 : (0 : ℚ) < c.maxChannel := lt_trans one_pos hlt
    have hcl : c.clamped = c.divScalar c.maxChannel := by
      rw [Colour.clamped, max_eq_left hlt.le]
    have hmax : (c.divScalar c.maxChannel).maxChannel = 1 := by
      rw [Colour.maxChannel_divScalar c _ h0, div_self h0.ne']
    constructor
    · rw [hcl, Colour.clamped, hmax, max_self, Colour.divScalar_one]
    · rw [hcl, if_pos hlt]

/-- `ratAsU8` on a natural number at most `255` is that number. -/
theorem ratAsU8_natCast (n : ℕ) (hn : n ≤ 255) : ratAsU8 (n : ℚ) = n := by
  have h1 : ((n : ℚ)).num = (n : ℤ) := Rat.num_natCast n
  have h2 : ((n : ℚ)).den = 1 := Rat.den_natCast n
  simp only [ratAsU8, h1, h2, Nat.cast_one, Int.ediv_one]
  omega

/-- C8: converting an 8-bit triple to `Colour` (channels divided by 255)
and back to 8-bit RGB (clamp, scale by 255, truncate) reproduces the
triple exactly — in particular for the representative samples 0, 127 and
255. -/
theorem colour_rgb_roundtrip (r g b : Fin 256) :
    colourToRgb (colourFromRgb ⟨r.val, g.val, b.val⟩) = ⟨r.val, g.val, b.val⟩ := by
  have hch : ∀ n : Fin 256, ((n.val : ℚ)) / 255 ≤ 1 := by
    intro n
    rw [div_le_one (by norm_num)]
    exact_mod_cast Nat.le_of_lt_succ n.isLt
  have hmax : (Colour.mk ((r.val : ℚ) / 255) ((g.val : ℚ) / 255)
      ((b.val : ℚ) / 255)).maxChannel ≤ 1 := by
    simp only [Colour.maxChannel]
    exact max_le (max_le (hch r) (hch g)) (hch b)
  have hcl : (Colour.mk ((r.val : ℚ) / 255) ((g.val : ℚ) / 255)
        ((b.val : ℚ) / 255)).clamped
      = Colour.mk ((r.val : ℚ) / 255) ((g.val : ℚ) / 255) ((b.val : ℚ) / 255) := by
    rw [Colour.clamped, max_eq_right hmax, Colour.divScalar_one]
  have hscale : ∀ n : Fin 256, (255 : ℚ) * ((n.val : ℚ) / 255) = (n.val : ℚ) := by
    intro n
    rw [mul_div_cancel₀]
    norm_num
  simp only [colourToRgb, colourFromRgb, hcl, Colour.scale, hscale]
  have hb : ∀ n : Fin 256, ratAsU8 ((n.val : ℚ)) = n.val := fun n =>
    ratAsU8_natCast n.val (Nat.le_of_lt_succ n.isLt)
  rw [hb r, hb g, hb b]

/-- C9: every `Triangle` construction path re-establishes the cached-normal
invariant: `Triangle::new` computes the normal from the vertices, `set_v`
recomputes it after updating a vertex, and every transform application
(vertex-wise map followed by `Triangle::new`, as in all seven operator
impls, two of which are instantiated concretely) recomputes it from the
transformed vertices rather than transforming the cached normal. -/
theorem triangle_normal_invariant_preserved :
    (∀ (a b c : Vec3) (col : Rgb), (Triangle.new a b c col).normalInvariant) ∧
    (∀ (t : Triangle) (i : Fin 3) (p : Vec3), (t.set_v i p).normalInvariant) ∧
    (∀ (f : Vec3 → Vec3) (t : Triangle), (Triangle.applyTransform f t).normalInvariant) ∧
    (∀ (m : Triangle.Matrix3) (t : Triangle), (Triangle.mulMatrix3 m t).normalInvariant) ∧
    (∀ (v : Vec3) (t : Triangle), (Triangle.mulTranslation v t).normalInvariant) :=
  ⟨fun _ _ _ _ => rfl, fun _ _ _ => rfl, fun _ _ => rfl, fun _ _ => rfl, fun _ _ => rfl⟩

/-- C10: for a viewport constructed with sample count `n`, the sub-pixel
offsets are `n` copies of one and the same vector (the noise generator is
queried at the constant coordinate `[0,0]` for every sample),
`get_rays_count` is `n`, and `cast_ray` yields exactly `get_rays_count`
rays for every pixel. -/
theorem viewport_offsets_constant_and_ray_count (w h : ℕ) (unproj : Vec3 → Vec3)
    (noise00 : ℚ) (n : ℕ) (sp : ℕ × ℕ) :
    (ViewportE.new w h unproj noise00 n).point_offsets
        = List.replicate n (Vec2.scale (1 / 2) ⟨noise00, noise00⟩) ∧
    (ViewportE.new w h unproj noise00 n).get_rays_count = n ∧
    ((ViewportE.new w h unproj noise00 n).cast_ray sp).length
        = (ViewportE.new w h unproj noise00 n).get_rays_count := by
  refine ⟨?_, ?_, ?_⟩
  · simp [ViewportE.new, List.map_const', List.map_replicate]
  · simp [ViewportE.new, ViewportE.get_rays_count, List.map_const', List.map_replicate]
  · simp [ViewportE.cast_ray, ViewportE.get_rays_count]

/-- `minByFirst` returns `none` exactly on the empty list (the `?` in the
source propagates `None` from `min_by` only when the iterator is empty). -/
theorem minByFirst_eq_none_iff {α : Type} (key : α → ℚ) (l : List α) :
    minByFirst key l = none ↔ l = [] := by
  cases l with
  | nil => simp [minByFirst]
  | cons x xs =>
    simp only [minByFirst]
    cases minByFirst key xs with
    | none => simp
    | some y =>
      constructor
      · intro hcontra
        by_cases hk : key y < key x <;> simp [hk] at hcontra
      · intro hcontra
        exact absurd hcontra (List.cons_ne_nil x xs)

/-- Characterization of `minByFirst`: the returned element splits the list
as `pre ++ x :: post` where every element of `pre` has a strictly larger
key (so `x` is the first element attaining the minimum) and `x` has a key
at most every key of the list (so it attains the minimum). -/
theorem minByFirst_is_first_min {α : Type} (key : α → ℚ) :
    ∀ (l : List α) (x : α), minByFirst key l = some x →
      ∃ pre post, l = pre ++ x :: post ∧
        (∀ y ∈ pre, key x < key y) ∧
        (∀ y ∈ l, key x ≤ key y) := by
  intro l
  induction l with
  | nil => intro x hx; simp [minByFirst] at hx
  | cons a xs ih =>
    intro x hx
    simp only [minByFirst] at hx
    cases htail : minByFirst key xs with
    | none =>
      rw [htail] at hx
      simp only [Option.some.injEq] at hx
      subst hx
      have hxs : xs = [] := (minByFirst_eq_none_iff key xs).mp htail
      subst hxs
      refine ⟨[], [], rfl, by simp, ?_⟩
      intro y hy
      rcases List.mem_singleton.mp hy with rfl
      exact le_refl _
    | some m =>
      rw [htail] at hx
      simp only at hx
      obtain ⟨pre, post, hsplit, hpre, hmin⟩ := ih m htail
      by_cases hk : key m < key a
      · rw [if_pos hk] at hx
        simp only [Option.some.injEq] at hx
        subst hx
        refine ⟨a :: pre, post, by rw [hsplit]; rfl, ?_, ?_⟩
        · intro y hy
          rcases List.mem_cons.mp hy with rfl | hy
          · exact hk
          · exact hpre y hy
        · intro y hy
          rcases List.mem_cons.mp hy with rfl | hy
          · exact hk.le
          · exact hmin y hy
      · rw [if_neg hk] at hx
        simp only [Option.some.injEq] at hx
        subst hx
        refine ⟨[], xs, rfl, by simp, ?_⟩
        intro y hy
        rcases List.mem_cons.mp hy with rfl | hy
        · exact le_refl _
        · exact le_trans (not_lt.mp hk) (hmin y hy)

/-- C2: `closest_hit` returns `none` exactly when no primitive intersects
the ray (so in particular on an empty collection), and any returned hit is
the point and index of the first entry of the scan list (primitives
enumerated in append order, each intersecting one paired with the distance
from the ray origin to its hit point, NaN distances discarded) attaining
the minimum distance: entries scanned earlier are strictly farther, and no
entry is nearer. -/
theorem closest_hit_selects_first_minimum (pm : PrimsWithMats) (ray : Ray) :
    (pm.closest_hit ray = none ↔ pm.hitTriples ray = []) ∧
    (PrimsWithMats.closest_hit ⟨[], []⟩ ray = none) ∧
    (∀ h : HitResult, pm.closest_hit ray = some h →
      ∃ pre trip post, pm.hitTriples ray = pre ++ trip :: post ∧
        h.point = trip.2.1 ∧ h.index = trip.1 ∧
        (∀ other ∈ pre, trip.2.2 < other.2.2) ∧
        (∀ other ∈ pm.hitTriples ray, trip.2.2 ≤ other.2.2)) := by
  refine ⟨?_, ?_, ?_⟩
  · rw [PrimsWithMats.closest_hit, Option.map_eq_none', minByFirst_eq_none_iff]
  · rfl
  · intro h hsome
    rw [PrimsWithMats.closest_hit, Option.map_eq_some'] at hsome
    obtain ⟨trip, htrip, hh⟩ := hsome
    obtain ⟨pre, post, hsplit, hpre, hmin⟩ :=
      minByFirst_is_first_min (fun ipd => ipd.2.2) (pm.hitTriples ray) trip htrip
    exact ⟨pre, trip, post, hsplit, by rw [hh.symm], by rw [hh.symm],
      hpre, hmin⟩

/-- Folding `add_light` leaves the diffuse channel of the accumulator
untouched and folds `Colour.add` over the emission channels. -/
theorem foldl_add_light (l : List TraceResult) (a : TraceResult) :
    l.foldl TraceResult.add_light a
      = ⟨a.diffuse, l.foldl (fun c tr => c.add tr.emission) a.emission⟩ := by
  induction l generalizing a with
  | nil => rfl
  | cons x xs ih =>
    simp only [List.foldl]
    rw [ih]
    rfl

/-- Unfolding `trace_until` on a miss: the default material as-is. -/
theorem trace_until_miss (s : SceneE) (ray : Ray) (step : ℕ)
    (h : s.closest_hit ray = none) :
    s.trace_until ray step = TraceResult.fromMaterial s.default_material := by
  rw [SceneE.trace_until, h]

/-- Unfolding `trace_until` on a hit with remaining recursion budget. -/
theorem trace_until_hit (s : SceneE) (ray : Ray) (hit : HitResult) (step : ℕ)
    (h1 : s.closest_hit ray = some hit) (h2 : step < s.recursion_depth) :
    s.trace_until ray step =
      TraceResult.apply_to
        ⟨Colour.zero,
          (TraceResult.emissionSum
              ((s.beam ray hit).map fun br => s.trace_until br (step + 1))).divScalar
            (s.beam_rays_count : ℚ)⟩
        (s.triangles.get_material hit.index) := by
  rw [SceneE.trace_until, h1]
  simp only [dif_pos h2]
  rw [foldl_add_light]
  rfl

/-- Unfolding `trace_until` on a hit with exhausted recursion budget. -/
theorem trace_until_exhausted (s : SceneE) (ray : Ray) (hit : HitResult) (step : ℕ)
    (h1 : s.closest_hit ray = some hit) (h2 : ¬ step < s.recursion_depth) :
    s.trace_until ray step =
      TraceResult.apply_to (TraceResult.fromMaterial s.default_material)
        (s.triangles.get_material hit.index) := by
  rw [SceneE.trace_until, h1]
  simp only [dif_neg h2]

/-- C3: on a hit with remaining recursion budget the outgoing trace result
has equal diffuse and emission channels, both equal to
`material.emission + material.diffuse * incoming.emission` where `material`
is the material at the hit index and `incoming.emission` is the sum of the
emissions of the beam sub-results divided by `beam_rays_count`; and the
top-level `trace` returns the diffuse field of the depth-0 result. -/
theorem trace_until_combines_beam_emission (s : SceneE) (ray : Ray)
    (hit : HitResult) (step : ℕ)
    (h1 : s.closest_hit ray = some hit) (h2 : step < s.recursion_depth) :
    (s.trace_until ray step).diffuse = (s.trace_until ray step).emission ∧
    (s.trace_until ray step).emission =
      (s.triangles.get_material hit.index).emission.add
        ((s.triangles.get_material hit.index).diffuse.mul
          ((TraceResult.emissionSum
              ((s.beam ray hit).map fun br => s.trace_until br (step + 1))).divScalar
            (s.beam_rays_count : ℚ))) ∧
    (∀ r : Ray, s.trace r = (s.trace_until r 0).diffuse) := by
  rw [trace_until_hit s ray hit step h1 h2]
  exact ⟨rfl, rfl, fun _ => rfl⟩

/-- C5: a miss at any depth yields the default material of the scene taken
as-is (both fields unchanged, no further tracing), and tracing any ray in
a scene with no primitives returns the diffuse colour of the default
material. -/
theorem trace_miss_yields_default_material (s : SceneE) :
    (∀ (ray : Ray) (step : ℕ), s.closest_hit ray = none →
        s.trace_until ray step = TraceResult.fromMaterial s.default_material) ∧
    (∀ ray : Ray, s.triangles.primitives = [] →
        s.trace ray = s.default_material.diffuse) := by
  constructor
  · exact fun ray step h => trace_until_miss s ray step h
  · intro ray hp
    have hnone : s.closest_hit ray = none := by
      simp [SceneE.closest_hit, PrimsWithMats.closest_hit, PrimsWithMats.hitTriples,
        hp, minByFirst]
    rw [SceneE.trace, trace_until_miss s ray 0 hnone]
    rfl

/-- C4 (amended): with exhausted recursion budget (in particular
`recursion_depth = 0`), a hit takes the default material of the scene
directly as the incoming-light estimate, so `trace` returns the diffuse
colour of the hit material exactly whenever the hit material has zero
emission and the default material has emission `(1,1,1)`. -/
theorem trace_depth_zero_hit_takes_material (s : SceneE) (ray : Ray)
    (hit : HitResult)
    (hd : s.recursion_depth = 0)
    (hh : s.closest_hit ray = some hit)
    (hem : (s.triangles.get_material hit.index).emission = Colour.zero)
    (hdef : s.default_material.emission = ⟨1, 1, 1⟩) :
    s.trace ray = (s.triangles.get_material hit.index).diffuse := by
  have h2 : ¬ 0 < s.recursion_depth := by omega
  rw [SceneE.trace, trace_until_exhausted s ray hit 0 hh h2]
  simp only [TraceResult.apply_to, TraceResult.fromMaterial]
  rw [hem, hdef]
  cases hm : (s.triangles.get_material hit.index).diffuse
  simp [Colour.add, Colour.mul, Colour.zero]

/-- Folding `max` over a list of naturals stays below a bound that
dominates the accumulator and every element. -/
theorem foldl_max_le (l : List ℕ) (a b : ℕ) (ha : a ≤ b)
    (hl : ∀ x ∈ l, x ≤ b) : l.foldl max a ≤ b := by
  induction l generalizing a with
  | nil => exact ha
  | cons x xs ih =>
    simp only [List.foldl]
    exact ih (max a x) (max_le ha (hl x (List.mem_cons_self x xs)))
      (fun y hy => hl y (List.mem_cons_of_mem x hy))

/-- Fuel-indexed bound on the instrumented recursion depth. -/
theorem traceCallDepth_le_aux (s : SceneE) :
    ∀ (fuel : ℕ) (ray : Ray) (step : ℕ), s.recursion_depth - step ≤ fuel →
      s.traceCallDepth ray step ≤ s.recursion_depth - step := by
  intro fuel
  induction fuel with
  | zero =>
    intro ray step hf
    rw [SceneE.traceCallDepth]
    cases hc : s.closest_hit ray with
    | none => simp
    | some hit =>
      simp only
      rw [dif_neg (by omega)]
      exact Nat.zero_le _
  | succ n ih =>
    intro ray step _hf
    rw [SceneE.traceCallDepth]
    cases hc : s.closest_hit ray with
    | none => simp
    | some hit =>
      simp only
      by_cases hlt : step < s.recursion_depth
      · rw [dif_pos hlt]
        have hchild : ∀ x ∈ (s.beam ray hit).map (fun br => s.traceCallDepth br (step + 1)),
            x ≤ s.recursion_depth - step - 1 := by
          intro x hx
          obtain ⟨br, _hbr, rfl⟩ := List.mem_map.mp hx
          have hrec := ih br (step + 1) (by omega)
          omega
        have hfold := foldl_max_le _ 0 (s.recursion_depth - step - 1) (by omega) hchild
        omega
      · rw [dif_neg hlt]
        exact Nat.zero_le _

/-- C6: for every scene, oracle and ray, the instrumented recursion depth
of `trace_until` started at step counter `step` is at most
`recursion_depth - step`: `trace_until` recurses only while `step` is
strictly below `recursion_depth`, incrementing it by one per bounce, so a
top-level trace performs at most `recursion_depth` nested recursive
calls. -/
theorem trace_recursion_depth_bounded (s : SceneE) (ray : Ray) :
    (∀ step : ℕ, s.traceCallDepth ray step ≤ s.recursion_depth - step) ∧
    s.traceCallDepth ray 0 ≤ s.recursion_depth := by
  have hgen : ∀ step : ℕ, s.traceCallDepth ray step ≤ s.recursion_depth - step :=
    fun step => traceCallDepth_le_aux s (s.recursion_depth - step) ray step (le_refl _)
  exact ⟨hgen, by simpa using hgen 0⟩

/-- The farther test triangle (plane `z = 1.1`) reports no intersection
with the upward test ray: the source computes `t = −0.1 < 0`. -/
theorem intersects_triZ11_rayUp : Triangle.intersects triZ11 rayUp = none := by
  norm_num [Triangle.intersects, Triangle.new, Triangle.calculate_normal,
    Vec3.dot, Vec3.cross, Vec3.sub, Vec3.add, Vec3.smul, triZ11, rayUp]

/-- The nearer test triangle (plane `z = 1`) intersects the upward test ray
at `(0,0,−1)` — the ray origin itself (`t = 0`), not a point of the
triangle plane. -/
theorem intersects_triZ1_rayUp :
    Triangle.intersects triZ1 rayUp = some ⟨0, 0, -1⟩ := by
  norm_num [Triangle.intersects, Triangle.new, Triangle.calculate_normal,
    Triangle.is_inside, Vec3.dot, Vec3.cross, Vec3.sub, Vec3.add, Vec3.smul, triZ1, rayUp]

/-- The `z = 0` test triangle intersects the upward test ray at the
origin-plane point `(0,0,0)` (this plane passes through the coordinate
origin, where the source formula is correct). -/
theorem intersects_triZ0_rayUp :
    Triangle.intersects triZ0 rayUp = some ⟨0, 0, 0⟩ := by
  norm_num [Triangle.intersects, Triangle.new, Triangle.calculate_normal,
    Triangle.is_inside, Vec3.dot, Vec3.cross, Vec3.sub, Vec3.add, Vec3.smul, triZ0, rayUp]

/-- The scan list of the two-triangle collection contains exactly the
`z = 1` hit at distance `0`. -/
theorem hitTriples_pair_rayUp :
    pairPrims.hitTriples rayUp = [(1, ⟨0, 0, -1⟩, 0)] := by
  have hro : rayUp.origin = ⟨0, 0, -1⟩ := rfl
  norm_num [PrimsWithMats.hitTriples, ratIsNaN, List.enum, List.enumFrom,
    List.filterMap_cons, pairPrims, intersects_triZ11_rayUp, intersects_triZ1_rayUp,
    hro, Vec3.sqNorm, Vec3.dot, Vec3.sub]

/-- `closest_hit` on the two-triangle collection returns index `1` with the
point `(0,0,−1)` produced by `intersects`. -/
theorem closest_hit_pair_rayUp :
    pairPrims.closest_hit rayUp = some ⟨⟨0, 0, -1⟩, 1⟩ := by
  simp [PrimsWithMats.closest_hit, hitTriples_pair_rayUp, minByFirst]

/-- `closest_hit` on the single `z = 0` triangle (any materials) returns
index `0` with point `(0,0,0)`. -/
theorem closest_hit_single_rayUp (ms : List Material) :
    PrimsWithMats.closest_hit ⟨[triZ0], ms⟩ rayUp = some ⟨⟨0, 0, 0⟩, 0⟩ := by
  have hro : rayUp.origin = ⟨0, 0, -1⟩ := rfl
  have ht : PrimsWithMats.hitTriples ⟨[triZ0], ms⟩ rayUp = [(0, ⟨0, 0, 0⟩, 1)] := by
    norm_num [PrimsWithMats.hitTriples, ratIsNaN, List.enum, List.enumFrom,
      List.filterMap_cons, intersects_triZ0_rayUp, hro, Vec3.sqNorm, Vec3.dot, Vec3.sub]
  simp [PrimsWithMats.closest_hit, ht, minByFirst]

/-- C1 (code bug): the upward test ray passes through `(0,0,1)`, a point
strictly inside the `z = 1` test triangle, yet `intersects` does not
return that point — it returns the off-plane point `(0,0,−1)` instead,
because the plane equation of the source adds `distance_to_origin = n·v0`
where the correct formula subtracts it.  Consequently `closest_hit` on the
collection of the repository test
`closest_hit_chooses_closest_primitive_on_hit` yields point `(0,0,−1)`
where that test asserts `(0,0,1)`. -/
theorem intersects_misplaces_hit_on_offset_plane :
    Triangle.intersects triZ1 rayUp = some ⟨0, 0, -1⟩ ∧
    Vec3.add rayUp.origin (Vec3.smul 2 rayUp.direction) = ⟨0, 0, 1⟩ ∧
    Triangle.is_inside triZ1 ⟨0, 0, 1⟩ = true ∧
    Triangle.intersects triZ1 rayUp ≠ some ⟨0, 0, 1⟩ ∧
    pairPrims.closest_hit rayUp ≠ some ⟨⟨0, 0, 1⟩, 1⟩ := by
  refine ⟨intersects_triZ1_rayUp, by norm_num [rayUp, Vec3.add, Vec3.smul], ?_, ?_, ?_⟩
  · norm_num [Triangle.is_inside, triZ1, Triangle.new, Triangle.calculate_normal,
      Vec3.dot, Vec3.cross, Vec3.sub]
  · rw [intersects_triZ1_rayUp]
    intro hcontra
    simp only [Option.some.injEq] at hcontra
    exact absurd (congrArg Vec3.z hcontra) (by norm_num)
  · rw [closest_hit_pair_rayUp]
    intro hcontra
    simp only [Option.some.injEq] at hcontra
    have := congrArg (fun h : HitResult => h.point.z) hcontra
    norm_num at this

/-- Witness for C2: on the two-triangle collection and the upward test
ray, the returned hit `((0,0,−1), 1)` is the first minimum of the scan
list. -/
theorem closest_hit_selects_first_minimum_witness :
    ∃ pre trip post, pairPrims.hitTriples rayUp = pre ++ trip :: post ∧
      (HitResult.mk ⟨0, 0, -1⟩ 1).point = trip.2.1 ∧
      (HitResult.mk ⟨0, 0, -1⟩ 1).index = trip.1 ∧
      (∀ other ∈ pre, trip.2.2 < other.2.2) ∧
      (∀ other ∈ pairPrims.hitTriples rayUp, trip.2.2 ≤ other.2.2) :=
  (closest_hit_selects_first_minimum pairPrims rayUp).2.2
    ⟨⟨0, 0, -1⟩, 1⟩ closest_hit_pair_rayUp

/-- Witness for C3: in the depth-1 one-triangle scene, the depth-0 result
on the upward test ray combines the hit material with the averaged beam
emission, and `trace` projects the diffuse field. -/
theorem trace_until_combines_beam_emission_witness :
    (sceneDepth1.trace_until rayUp 0).diffuse = (sceneDepth1.trace_until rayUp 0).emission ∧
    (sceneDepth1.trace_until rayUp 0).emission =
      (sceneDepth1.triangles.get_material 0).emission.add
        ((sceneDepth1.triangles.get_material 0).diffuse.mul
          ((TraceResult.emissionSum
              ((sceneDepth1.beam rayUp ⟨⟨0, 0, 0⟩, 0⟩).map fun br =>
                sceneDepth1.trace_until br (0 + 1))).divScalar
            (sceneDepth1.beam_rays_count : ℚ))) ∧
    (∀ r : Ray, sceneDepth1.trace r = (sceneDepth1.trace_until r 0).diffuse) :=
  trace_until_combines_beam_emission sceneDepth1 rayUp ⟨⟨0, 0, 0⟩, 0⟩ 0
    (closest_hit_single_rayUp [matGreen]) (by decide)

/-- Witness for C4 (amended): in the depth-0 one-triangle scene of the
repository test `tracing_with_hit_yields_hitted_primitive_colour`, `trace`
returns the diffuse colour `(0,1,0)` of the hit material. -/
theorem trace_depth_zero_hit_takes_material_witness :
    sceneHitW.trace rayUp = (sceneHitW.triangles.get_material 0).diffuse :=
  trace_depth_zero_hit_takes_material sceneHitW rayUp ⟨⟨0, 0, 0⟩, 0⟩ rfl
    (closest_hit_single_rayUp [matGreen]) rfl rfl

/-- Counterexample for C4 as stated: in a depth-0 scene with one triangle
that the ray hits, whose material has emission `(2,2,2)` and diffuse
`(0,1,0)` (default emission `(1,1,1)` as in the repository tests), `trace`
returns `(2,3,2)` — not the diffuse colour of the material, so the result
is not independent of emission. -/
theorem trace_depth_zero_ignores_emission_cex :
    sceneHitEmissive.recursion_depth = 0 ∧
    sceneHitEmissive.triangles.primitives.length = 1 ∧
    sceneHitEmissive.closest_hit rayUp = some ⟨⟨0, 0, 0⟩, 0⟩ ∧
    sceneHitEmissive.trace rayUp = ⟨2, 3, 2⟩ ∧
    sceneHitEmissive.trace rayUp ≠ (sceneHitEmissive.triangles.get_material 0).diffuse := by
  have hch : sceneHitEmissive.closest_hit rayUp = some ⟨⟨0, 0, 0⟩, 0⟩ :=
    closest_hit_single_rayUp [matGreenEmissive]
  have htr : sceneHitEmissive.trace rayUp = ⟨2, 3, 2⟩ := by
    rw [SceneE.trace,
      trace_until_exhausted sceneHitEmissive rayUp ⟨⟨0, 0, 0⟩, 0⟩ 0 hch (by decide)]
    norm_num [TraceResult.apply_to, TraceResult.fromMaterial, PrimsWithMats.get_material,
      sceneHitEmissive, matGreenEmissive, defaultMatW, Colour.add, Colour.mul]
  have hdiff : (sceneHitEmissive.triangles.get_material 0).diffuse = ⟨0, 1, 0⟩ := rfl
  refine ⟨rfl, rfl, hch, htr, ?_⟩
  rw [htr, hdiff]
  exact fun hcontra => absurd (congrArg Colour.green hcontra) (by norm_num)

/-- Witness for C5: on the empty scene, `trace_until` returns the default
material as-is and `trace` returns its diffuse colour. -/
theorem trace_miss_yields_default_material_witness :
    sceneEmpty.trace_until rayUp 0 = TraceResult.fromMaterial sceneEmpty.default_material ∧
    sceneEmpty.trace rayUp = sceneEmpty.default_material.diffuse :=
  ⟨(trace_miss_yields_default_material sceneEmpty).1 rayUp 0 rfl,
   (trace_miss_yields_default_material sceneEmpty).2 rayUp rfl⟩

end Rustracer
